import Mathlib

/-!
Shallow embedding of the py-agent-dashboard repository core
(`src/runner.py` and `src/dashboard.py`) together with theorems settling
the frozen claims about the natural-language specification.

Conventions of the embedding:
* Python exceptions carrying a module name are modelled by `ExcInfo`
  (the optional `name` attribute of `ImportError` plus the stringified
  message that the regex fallback scans).
* The outcome of executing the job script once (`runpy.run_path`) on a
  given pass is an oracle `Nat → PassOutcome`, indexed by the pass
  number, since installs change the interpreter state between passes.
* The combined dependency-resolution step of a pass
  (`pip_install(missing) or apt_install_for(missing)` in
  `run_until_stable`) is an oracle `Nat → String → Bool` at the loop
  level; the resolver bodies themselves are embedded separately with an
  explicit side-effect trace (`pip_install`, `apt_install_for`,
  `resolve_missing`) over an environment record `Env`.
* Machine-level details that cannot affect any claim (pip command-line
  flag selection, timestamps inside event records, log text) are
  omitted; every branch that decides control flow is kept.
-/

/-- The single quote character, used by the message-shape fallback of
`missing_from_exc` (the Python regex is about module names wrapped in
single quotes). -/
def quoteChar : Char := Char.ofNat 39

/-- The literal text that precedes the captured module name in the
failure-message shape scanned by `missing_from_exc`. -/
def markerChars : List Char := ("No module named ").toList ++ [quoteChar]

/-- Backtracking search for the Python regex
`No module named <quote>([^<quote>]+)<quote>` over a character list:
try every start position, succeed at the first position where the
marker is followed by a nonempty run of non-quote characters and a
closing quote. Mirrors `re.search` semantics for this pattern. -/
def findModuleName : List Char → Option (List Char)
  | [] => none
  | c :: rest =>
    if markerChars.isPrefixOf (c :: rest) then
      let after := (c :: rest).drop markerChars.length
      let cap := after.takeWhile (fun ch => ch ≠ quoteChar)
      if cap ≠ [] ∧ after.dropWhile (fun ch => ch ≠ quoteChar) ≠ [] then
        some cap
      else
        findModuleName rest
    else
      findModuleName rest

/-- Model of a Python exception as far as `missing_from_exc` inspects
it: the optional `name` attribute and the stringified message. -/
structure ExcInfo where
  name : Option String
  msg : String
deriving DecidableEq

/-- Embedding of `missing_from_exc` (src/runner.py:111-115): prefer the
structured `name` attribute when it is truthy (Python treats the empty
string as falsy), otherwise scan the message for the
`No module named <quote>...<quote>` shape. -/
def missing_from_exc (e : ExcInfo) : Option String :=
  match e.name with
  | some n => if n ≠ "" then some n else (findModuleName e.msg.toList).map String.mk
  | none => (findModuleName e.msg.toList).map String.mk

/-- The argument carried by a `SystemExit` raised inside the script:
`sys.exit()` gives `noCode`, `sys.exit(n)` with an int gives `code n`,
anything else (string, object) gives `nonInt`. -/
inductive ExitArg
  | noCode
  | code (n : Int)
  | nonInt
deriving DecidableEq

/-- Outcome of one execution of the job script (`runpy.run_path`) on a
given pass: normal completion, an `ImportError`/`ModuleNotFoundError`
carrying `ExcInfo`, a `SystemExit`, or any other uncaught exception. -/
inductive PassOutcome
  | ok
  | importErr (e : ExcInfo)
  | sysExit (c : ExitArg)
  | otherExc
deriving DecidableEq

/-- How `run_until_stable` terminates: either it returns an exit code
to `main`, or it re-raises the import error (the `raise` branches at
src/runner.py:179 and :191), which then propagates out of `main`
uncaught. -/
inductive RunResult
  | exited (code : Int)
  | raised (e : ExcInfo)
deriving DecidableEq

/-- Exit status of the engine process as a whole: `sys.exit(rc)` on the
returned code, and interpreter status 1 for an uncaught propagated
exception. -/
def processExit : RunResult → Int
  | .exited n => n
  | .raised _ => 1

/-- Result of the pass loop together with the observable counters the
claims talk about: number of passes performed and number of
dependency-install attempts made. -/
structure RunStats where
  result : RunResult
  passes : Nat
  installs : Nat
deriving DecidableEq

/-- Loop body of `run_until_stable` (src/runner.py:166-202), with the
`while passes < MAX_PASSES` guard expressed through `fuel`
(`fuel = MAX_PASSES - passes`, so the guard fails exactly when `fuel`
is zero). `rs p` is the outcome of running the script on pass `p`;
`rv p m` is the combined `pip_install(m) or apt_install_for(m)` result
on pass `p`. `installs` counts passes on which an install was
attempted (one resolution attempt per detected missing module). -/
def run_until_stable_go (rs : Nat → PassOutcome) (rv : Nat → String → Bool) :
    Nat → Nat → Nat → RunStats
  | passes, installs, 0 => ⟨.exited 1, passes, installs⟩
  | passes, installs, fuel + 1 =>
    match rs (passes + 1) with
    | .ok => ⟨.exited 0, passes + 1, installs⟩
    | .importErr e =>
      match missing_from_exc e with
      | none => ⟨.raised e, passes + 1, installs⟩
      | some m =>
        if rv (passes + 1) m then
          run_until_stable_go rs rv (passes + 1) (installs + 1) fuel
        else
          ⟨.raised e, passes + 1, installs + 1⟩
    | .sysExit .noCode => ⟨.exited 0, passes + 1, installs⟩
    | .sysExit (.code n) => ⟨.exited n, passes + 1, installs⟩
    | .sysExit .nonInt => ⟨.exited 1, passes + 1, installs⟩
    | .otherExc => ⟨.exited 1, passes + 1, installs⟩

/-- Embedding of `run_until_stable` (src/runner.py:166-202): run the
pass loop from a fresh state with at most `maxPasses` passes
(`MAX_PASSES`, default 50, env-overridable). -/
def run_until_stable (maxPasses : Nat) (rs : Nat → PassOutcome)
    (rv : Nat → String → Bool) : RunStats :=
  run_until_stable_go rs rv 0 0 maxPasses

/-- Default value of the `MAX_PASSES` safety cap (src/runner.py:12). -/
def MAX_PASSES_default : Nat := 50

example : missing_from_exc ⟨some "foo", ""⟩ = some "foo" := by decide
example : missing_from_exc ⟨none, "boom"⟩ = none := by decide
example :
    missing_from_exc ⟨none, "No module named " ++ String.mk [quoteChar] ++ "abc" ++ String.mk [quoteChar]⟩
      = some "abc" := by decide

/-! Pass-loop lemmas. -/

/-- The pass counter never exceeds the remaining fuel: from any loop
state, at most `fuel` further passes happen. -/
theorem go_passes_le (rs : Nat → PassOutcome) (rv : Nat → String → Bool) :
    ∀ fuel passes installs,
      (run_until_stable_go rs rv passes installs fuel).passes ≤ passes + fuel := by
  intro fuel
  induction fuel with
  | zero => intro passes installs; simp [run_until_stable_go]
  | succ f ih =>
    intro passes installs
    cases hout : rs (passes + 1) with
    | ok => simp [run_until_stable_go, hout]
    | importErr e =>
      cases hm : missing_from_exc e with
      | none => simp [run_until_stable_go, hout, hm]
      | some m =>
        cases hr : rv (passes + 1) m with
        | false => simp [run_until_stable_go, hout, hm, hr]
        | true =>
          have h := ih (passes + 1) (installs + 1)
          simp only [run_until_stable_go, hout, hm, hr, if_true]
          omega
    | sysExit c => cases c <;> simp [run_until_stable_go, hout]
    | otherExc => simp [run_until_stable_go, hout]

/-- In a cascade where every pass reveals a fresh missing module whose
install succeeds, the loop consumes all its fuel and then returns the
aborted status 1, attempting one install per pass. -/
theorem go_cascade (rs : Nat → PassOutcome) (rv : Nat → String → Bool)
    (ident : Nat → String)
    (hc : ∀ p, ∃ e, rs p = .importErr e ∧ missing_from_exc e = some (ident p))
    (hr : ∀ p, rv p (ident p) = true) :
    ∀ fuel passes installs,
      run_until_stable_go rs rv passes installs fuel =
        ⟨.exited 1, passes + fuel, installs + fuel⟩ := by
  intro fuel
  induction fuel with
  | zero => intro passes installs; simp [run_until_stable_go]
  | succ f ih =>
    intro passes installs
    obtain ⟨e, he, hm⟩ := hc (passes + 1)
    have hstep : run_until_stable_go rs rv passes installs (f + 1) =
        run_until_stable_go rs rv (passes + 1) (installs + 1) f := by
      simp [run_until_stable_go, he, hm, hr (passes + 1)]
    rw [hstep, ih]
    have e1 : passes + 1 + f = passes + (f + 1) := by omega
    have e2 : installs + 1 + f = installs + (f + 1) := by omega
    rw [e1, e2]

/-- C1. A job that fails on missing module `A` in pass 1 (install of
`A` succeeds), fails on missing module `B` in pass 2 (install of `B`
succeeds) and completes in pass 3 makes the engine perform exactly 3
passes, return exit code 0, and record exactly 2 install attempts. -/
theorem three_pass_two_installs (maxPasses : Nat) (rs : Nat → PassOutcome)
    (rv : Nat → String → Bool) (e1 e2 : ExcInfo) (A B : String)
    (hmp : 3 ≤ maxPasses)
    (h1 : rs 1 = .importErr e1) (hA : missing_from_exc e1 = some A)
    (h2 : rs 2 = .importErr e2) (hB : missing_from_exc e2 = some B)
    (h3 : rs 3 = .ok)
    (rA : rv 1 A = true) (rB : rv 2 B = true) :
    run_until_stable maxPasses rs rv = ⟨.exited 0, 3, 2⟩ := by
  obtain ⟨f, rfl⟩ : ∃ f, maxPasses = f + 3 := ⟨maxPasses - 3, by omega⟩
  show run_until_stable_go rs rv 0 0 (f + 3) = ⟨.exited 0, 3, 2⟩
  have s1 : run_until_stable_go rs rv 0 0 (f + 3) =
      run_until_stable_go rs rv 1 1 (f + 2) := by
    show run_until_stable_go rs rv 0 0 ((f + 2) + 1) = _
    simp [run_until_stable_go, h1, hA, rA]
  have s2 : run_until_stable_go rs rv 1 1 (f + 2) =
      run_until_stable_go rs rv 2 2 (f + 1) := by
    show run_until_stable_go rs rv 1 1 ((f + 1) + 1) = _
    simp [run_until_stable_go, h2, hB, rB]
  have s3 : run_until_stable_go rs rv 2 2 (f + 1) = ⟨.exited 0, 3, 2⟩ := by
    simp [run_until_stable_go, h3]
  rw [s1, s2, s3]

/-- Witness script for the three-pass scenario: pass 1 is missing `A`,
pass 2 is missing `B`, pass 3 succeeds. -/
def c1script : Nat → PassOutcome := fun n =>
  if n = 1 then .importErr ⟨some "A", ""⟩
  else if n = 2 then .importErr ⟨some "B", ""⟩
  else .ok

/-- Resolution oracle that succeeds for every module. -/
def allResolve : Nat → String → Bool := fun _ _ => true

/-- Resolution oracle that fails for every module. -/
def noResolve : Nat → String → Bool := fun _ _ => false

/-- Witness for C1 at the default pass cap of 50. -/
theorem three_pass_two_installs_witness :
    run_until_stable 50 c1script allResolve = ⟨.exited 0, 3, 2⟩ :=
  three_pass_two_installs 50 c1script allResolve ⟨some "A", ""⟩ ⟨some "B", ""⟩
    "A" "B" (by decide) (by decide) (by decide) (by decide) (by decide)
    (by decide) rfl rfl

/-- C2 (amended). In a cascade where every pass reveals a fresh missing
module whose install succeeds yet the job keeps failing, the engine
stops after exactly `maxPasses` passes with the aborted status 1; and
for every job whatsoever the loop performs at most `maxPasses`
passes. -/
theorem pass_cap_amended (maxPasses : Nat) (rs : Nat → PassOutcome)
    (rv : Nat → String → Bool) (ident : Nat → String)
    (hc : ∀ p, ∃ e, rs p = .importErr e ∧ missing_from_exc e = some (ident p))
    (hr : ∀ p, rv p (ident p) = true) :
    run_until_stable maxPasses rs rv = ⟨.exited 1, maxPasses, maxPasses⟩ ∧
    ∀ rs2 rv2, (run_until_stable maxPasses rs2 rv2).passes ≤ maxPasses := by
  constructor
  · have h := go_cascade rs rv ident hc hr maxPasses 0 0
    simpa [run_until_stable] using h
  · intro rs2 rv2
    have h := go_passes_le rs2 rv2 maxPasses 0 0
    simpa [run_until_stable] using h

/-- Script whose pass `n` fails on a fresh missing module (a name of
`n` trailing x characters), modelling a cascade of new identifiers. -/
def cascadeScript : Nat → PassOutcome := fun n =>
  .importErr ⟨some (String.mk ('m' :: List.replicate n 'x')), ""⟩

/-- Fresh identifier revealed on pass `n` by `cascadeScript`. -/
def cascadeIdent : Nat → String := fun n => String.mk ('m' :: List.replicate n 'x')

/-- Counterexample to C2 as stated: when each pass reveals a fresh
identifier that is never resolvable (every install fails), the engine
does NOT stop after exactly `MAX_PASSES` passes — it stops after pass 1
by re-raising the import error. -/
theorem pass_cap_counterexample :
    (run_until_stable 50 cascadeScript noResolve).passes = 1 ∧
    (run_until_stable 50 cascadeScript noResolve).passes ≠ 50 ∧
    (run_until_stable 50 cascadeScript noResolve).result = .raised ⟨some "mx", ""⟩ := by
  decide

/-- Helper: `missing_from_exc` returns the structured name whenever it
is nonempty. -/
theorem missing_from_exc_name (s m : String) (h : s ≠ "") :
    missing_from_exc ⟨some s, m⟩ = some s := by
  simp [missing_from_exc, h]

/-- Helper: a string built from a nonempty character list is not the
empty string. -/
theorem mk_cons_ne_empty (c : Char) (l : List Char) : String.mk (c :: l) ≠ "" := by
  intro h
  have h2 : c :: l = ([] : List Char) := congrArg String.data h
  simp at h2

/-- Witness for the amended C2 at the default pass cap of 50. -/
theorem pass_cap_amended_witness :
    run_until_stable 50 cascadeScript allResolve = ⟨.exited 1, 50, 50⟩ :=
  (pass_cap_amended 50 cascadeScript allResolve cascadeIdent
    (fun p => ⟨⟨some (cascadeIdent p), ""⟩, rfl,
      missing_from_exc_name _ _ (mk_cons_ne_empty _ _)⟩)
    (fun _ => rfl)).1

/-- C3. Exit-code fidelity: a `SystemExit` carrying integer code `n`
makes the engine return exactly `n`; a `SystemExit` carrying no code
makes it return 0 (no pass is retried and no install attempted). -/
theorem exit_code_fidelity (maxPasses : Nat) (rs rs2 : Nat → PassOutcome)
    (rv : Nat → String → Bool) (n : Int) (hmp : 1 ≤ maxPasses)
    (h1 : rs 1 = .sysExit (.code n)) (h2 : rs2 1 = .sysExit .noCode) :
    run_until_stable maxPasses rs rv = ⟨.exited n, 1, 0⟩ ∧
    run_until_stable maxPasses rs2 rv = ⟨.exited 0, 1, 0⟩ := by
  obtain ⟨f, rfl⟩ : ∃ f, maxPasses = f + 1 := ⟨maxPasses - 1, by omega⟩
  constructor
  · show run_until_stable_go rs rv 0 0 (f + 1) = _
    simp [run_until_stable_go, h1]
  · show run_until_stable_go rs2 rv 0 0 (f + 1) = _
    simp [run_until_stable_go, h2]

/-- Script that immediately requests termination with status 7. -/
def c3exit7 : Nat → PassOutcome := fun _ => .sysExit (.code 7)

/-- Script that requests termination with no explicit status. -/
def c3exitNone : Nat → PassOutcome := fun _ => .sysExit .noCode

/-- Witness for C3: requested code 7 yields engine exit code 7, a bare
termination request yields 0. -/
theorem exit_code_fidelity_witness :
    run_until_stable 50 c3exit7 noResolve = ⟨.exited 7, 1, 0⟩ ∧
    run_until_stable 50 c3exitNone noResolve = ⟨.exited 0, 1, 0⟩ :=
  exit_code_fidelity 50 c3exit7 c3exitNone noResolve 7 (by decide) rfl rfl

/-- C6. A pass failure from which no missing-module identifier can be
extracted is fatal: from any reachable loop state the loop re-raises
the exception immediately, attempts no install and runs no further
pass; from a fresh start the whole run stops within pass 1, and the
propagated exception terminates the process with a non-zero status. -/
theorem unparseable_failure_fatal (rs : Nat → PassOutcome)
    (rv : Nat → String → Bool) (passes installs fuel maxPasses : Nat)
    (e : ExcInfo) (hm : missing_from_exc e = none)
    (hp : rs (passes + 1) = .importErr e) (h1 : rs 1 = .importErr e)
    (hf : 1 ≤ fuel) (hmp : 1 ≤ maxPasses) :
    run_until_stable_go rs rv passes installs fuel = ⟨.raised e, passes + 1, installs⟩ ∧
    run_until_stable maxPasses rs rv = ⟨.raised e, 1, 0⟩ ∧
    processExit (.raised e) ≠ 0 := by
  obtain ⟨fl, rfl⟩ : ∃ fl, fuel = fl + 1 := ⟨fuel - 1, by omega⟩
  obtain ⟨mp, rfl⟩ : ∃ mp, maxPasses = mp + 1 := ⟨maxPasses - 1, by omega⟩
  refine ⟨?_, ?_, by simp [processExit]⟩
  · simp [run_until_stable_go, hp, hm]
  · show run_until_stable_go rs rv 0 0 (mp + 1) = _
    simp [run_until_stable_go, h1, hm]

/-- Script whose failure message yields no extractable module name. -/
def c6script : Nat → PassOutcome := fun _ => .importErr ⟨none, "boom"⟩

/-- Witness for C6 at the default pass cap of 50. -/
theorem unparseable_failure_fatal_witness :
    run_until_stable_go c6script noResolve 0 0 50 = ⟨.raised ⟨none, "boom"⟩, 1, 0⟩ ∧
    run_until_stable 50 c6script noResolve = ⟨.raised ⟨none, "boom"⟩, 1, 0⟩ ∧
    processExit (.raised ⟨none, "boom"⟩) ≠ 0 :=
  unparseable_failure_fatal c6script noResolve 0 0 50 50 ⟨none, "boom"⟩
    (by decide) rfl rfl (by decide) (by decide)

/-! Dependency resolver with an explicit side-effect trace. -/

/-- Environment of the resolver: the module-level configuration flags
of src/runner.py and oracles for the outcomes of the external package
managers. `pipRc c` is the return code of `pip install c`; `aptRc p`
and `aptRcRetry p` are the return codes of the first and the
post-update `apt-get install -y p`; `importOk m` is whether a fresh
probe of module `m` (an import retry) succeeds after an install. -/
structure Env where
  allowAutoInstall : Bool
  pipAvailable : Bool
  isRoot : Bool
  pipRc : String → Int
  aptRc : String → Int
  aptRcRetry : String → Int
  importOk : String → Bool

/-- A package-manager invocation performed by the resolver, the side
effects the claims talk about. -/
inductive Invocation
  | pipInstall (pkg : String)
  | aptGetInstall (pkg : String)
  | aptGetUpdate
deriving DecidableEq

/-- Leading component of a dotted module path, the Python idiom
`pkg.split(".")[0]` (everything before the first dot). Implemented on
the character list so that it reduces inside the kernel. -/
def topModule (s : String) : String :=
  String.mk (s.toList.takeWhile (fun c => c ≠ '.'))

/-- The Python idiom `name.replace("_", "-")` for the single-character
pattern actually used by the runner. -/
def underscoreToHyphen (s : String) : String :=
  String.mk (s.toList.map (fun c => if c = '_' then '-' else c))

/-- Candidate loop of `pip_install` (src/runner.py:67-79): invoke pip
for each candidate name; on return code 0, probe a fresh import of the
top-level module and stop on success; otherwise keep trying. -/
def pip_try (env : Env) (top : String) : List String → Bool × List Invocation
  | [] => (false, [])
  | c :: cs =>
    if env.pipRc c = 0 ∧ env.importOk top then
      (true, [Invocation.pipInstall c])
    else
      let r := pip_try env top cs
      (r.1, Invocation.pipInstall c :: r.2)

/-- Embedding of `pip_install` (src/runner.py:49-80): refuse without
side effects when auto-install is disabled or pip is unavailable,
otherwise try the exact top-level name and, when it contains an
underscore, the hyphenated variant. Flag selection for the pip
command line (user-scoped versus break-system-packages) does not
change which invocations happen and is omitted. -/
def pip_install (env : Env) (pkg : String) : Bool × List Invocation :=
  if ¬ env.allowAutoInstall then (false, [])
  else if ¬ env.pipAvailable then (false, [])
  else
    let top := topModule pkg
    let candidates := [top] ++ (if top.toList.contains '_' then [underscoreToHyphen top] else [])
    pip_try env top candidates

/-- Embedding of `APT_MAP` (src/runner.py:82-91). -/
def APT_MAP : List (String × String) :=
  [("requests", "python3-requests"),
   ("bs4", "python3-bs4"),
   ("beautifulsoup4", "python3-bs4"),
   ("lxml", "python3-lxml"),
   ("yaml", "python3-yaml"),
   ("PyYAML", "python3-yaml"),
   ("dateutil", "python3-dateutil"),
   ("ujson", "python3-ujson")]

/-- Lookup in `APT_MAP` with the default of `python3-` plus the
hyphenated module name (src/runner.py:96). -/
def apt_pkg_for (name : String) : String :=
  match APT_MAP.lookup name with
  | some p => p
  | none => "python3-" ++ underscoreToHyphen name

/-- Embedding of `apt_install_for` (src/runner.py:93-109): nothing
happens without root; otherwise install the mapped package, refreshing
the package index once and retrying if the first attempt fails, and
report success only if a fresh import probe succeeds. Note there is no
auto-install guard in this function. -/
def apt_install_for (env : Env) (modname : String) : Bool × List Invocation :=
  if ¬ env.isRoot then (false, [])
  else
    let name := topModule modname
    let pkg := apt_pkg_for name
    if env.aptRc pkg = 0 then
      (env.importOk name, [Invocation.aptGetInstall pkg])
    else if env.aptRcRetry pkg = 0 then
      (env.importOk name, [Invocation.aptGetInstall pkg, Invocation.aptGetUpdate,
                           Invocation.aptGetInstall pkg])
    else
      (false, [Invocation.aptGetInstall pkg, Invocation.aptGetUpdate,
               Invocation.aptGetInstall pkg])

/-- The combined per-pass resolution step of `run_until_stable`
(src/runner.py:181-185): try `pip_install`, and if it reports failure
fall through to `apt_install_for`. -/
def resolve_missing (env : Env) (missing : String) : Bool × List Invocation :=
  let p := pip_install env missing
  if p.1 then p
  else
    let a := apt_install_for env missing
    (a.1, p.2 ++ a.2)

/-- Environment exhibiting the C5 failure: auto-install disabled, the
engine running as root, and an `apt-get install` that succeeds. -/
def c5env : Env :=
  { allowAutoInstall := false
    pipAvailable := true
    isRoot := true
    pipRc := fun _ => 1
    aptRc := fun _ => 0
    aptRcRetry := fun _ => 1
    importOk := fun _ => true }

/-- C5. Evaluation of the resolver at the failing input: with
auto-install disabled by configuration but the engine running as root,
resolving the module foo still invokes the OS-level package manager
(`apt-get install -y python3-foo`) and returns true — contradicting
the claim that resolution always returns false with no package-manager
invocation of any kind. -/
theorem auto_install_disabled_apt_still_runs :
    resolve_missing c5env "foo" = (true, [Invocation.aptGetInstall "python3-foo"]) ∧
    pip_install c5env "foo" = (false, []) ∧
    (resolve_missing c5env "foo").1 ≠ false ∧
    (resolve_missing c5env "foo").2 ≠ [] := by
  decide

/-! Post-success schedule mutation and event logging. -/

/-- A schedule-store entry as python-crontab renders it: the command,
the free-text comment tag (empty when absent) and the five-field
schedule expression. -/
structure CronJob where
  command : String
  comment : String
  slices : String
deriving DecidableEq

/-- An event record as written by `log_event` (src/runner.py:214-221);
the wall-clock timestamp is omitted. -/
structure EventRecord where
  kind : String
  name : Option String
deriving DecidableEq

/-- State of the stores the engine mutates after a successful run: the
schedule store and the append-only event log. -/
structure EngineState where
  cron : List CronJob
  events : List EventRecord
deriving DecidableEq

/-- Invocation context of the engine as `main` reads it: the value of
the `RUN_CONTEXT` environment marker and the result of
`read_run_until_success` for the job. -/
structure MainCtx where
  runContext : Option String
  runUntilSuccess : Bool
deriving DecidableEq

/-- Embedding of `disable_cron_by_comment` (src/runner.py:223-233):
drop every schedule entry whose python-crontab comment tag equals the
given name (the crontab line ends in hash plus that comment). -/
def disable_cron_by_comment (comment : String) (cron : List CronJob) : List CronJob :=
  cron.filter (fun j => ¬ (j.comment = comment))

/-- Embedding of `log_event` (src/runner.py:214-221): the whole body is
wrapped in a bare try/except, so an I/O failure (modelled by
`ioOk = false`) silently drops the record and nothing ever escapes to
the caller. -/
def log_event (ioOk : Bool) (kind : String) (name : Option String)
    (events : List EventRecord) : List EventRecord :=
  if ioOk then events ++ [⟨kind, name⟩] else events

/-- Embedding of the post-run tail of `main` (src/runner.py:253-261):
when the context marker says the run was cron-triggered, the job
returned 0 and its config requests run-until-success, disable the
job's schedule entries and append one `schedule_disabled_after_success`
event; a failure of the crontab mutation (`cronOk = false`, the
`except` branch) is only logged, skips the event, and leaves the exit
code untouched. Returns the final state and the code passed to
`sys.exit`. -/
def main_post (ctx : MainCtx) (name : String) (rc : Int) (cronOk ioOk : Bool)
    (st : EngineState) : EngineState × Int :=
  if ctx.runContext = some "cron" ∧ rc = 0 ∧ ctx.runUntilSuccess = true then
    if cronOk then
      ({ cron := disable_cron_by_comment name st.cron,
         events := log_event ioOk "schedule_disabled_after_success" (some name) st.events },
       rc)
    else (st, rc)
  else (st, rc)

/-- C4. With the crontab mutation and event write succeeding, the
engine disables the job's schedule entries and appends exactly one
`schedule_disabled_after_success` event precisely when the context
marker says cron, the run returned 0 and the config requests
run-until-success; in any non-cron (e.g. manual) context nothing is
mutated, even on success. -/
theorem auto_disable_iff (ctx : MainCtx) (name : String) (rc : Int)
    (st : EngineState) :
    ((main_post ctx name rc true true st).1 =
        { cron := st.cron.filter (fun j => ¬ (j.comment = name)),
          events := st.events ++ [⟨"schedule_disabled_after_success", some name⟩] }
      ↔ (ctx.runContext = some "cron" ∧ rc = 0 ∧ ctx.runUntilSuccess = true)) ∧
    (ctx.runContext ≠ some "cron" → main_post ctx name rc true true st = (st, rc)) := by
  constructor
  · constructor
    · intro h
      by_contra hc
      rw [main_post, if_neg hc] at h
      have hev := congrArg EngineState.events h
      simp only at hev
      have hlen := congrArg List.length hev
      rw [List.length_append] at hlen
      simp at hlen
    · intro hc
      rw [main_post, if_pos hc, if_pos rfl]
      simp [disable_cron_by_comment, log_event]
  · intro hnc
    rw [main_post, if_neg (by
      intro h
      exact hnc h.1)]

/-- Witness for C4: a successful manual run of a run-until-success job
leaves the schedule store and the event log untouched. -/
theorem auto_disable_iff_witness :
    main_post ⟨some "manual", true⟩ "job" 0 true true
        ⟨[⟨"cmd", "job", "5 4 3 2 1"⟩], []⟩ =
      (⟨[⟨"cmd", "job", "5 4 3 2 1"⟩], []⟩, 0) :=
  (auto_disable_iff ⟨some "manual", true⟩ "job" 0
    ⟨[⟨"cmd", "job", "5 4 3 2 1"⟩], []⟩).2 (by decide)

/-- C7. The engine's exit code after the post-success mutation step is
the job's final rc whether or not the schedule-store mutation
succeeds, so a failed mutation never changes the exit code. -/
theorem schedule_mutation_failure_keeps_exit (ctx : MainCtx) (name : String)
    (rc : Int) (ioOk : Bool) (st : EngineState) :
    (main_post ctx name rc false ioOk st).2 = (main_post ctx name rc true ioOk st).2 ∧
    (main_post ctx name rc false ioOk st).2 = rc ∧
    (main_post ctx name rc true ioOk st).2 = rc := by
  rw [main_post, main_post]
  by_cases h : ctx.runContext = some "cron" ∧ rc = 0 ∧ ctx.runUntilSuccess = true
  · rw [if_pos h, if_pos h]
    simp
  · rw [if_neg h, if_neg h]
    simp

/-- C10. The event-append operation is total: for every input it
either appends exactly the one record or (on a swallowed I/O failure)
silently drops it, and whether the write succeeds has no effect on the
engine's exit code. -/
theorem log_event_total_and_isolated (ioOk : Bool) (kind : String)
    (nm : Option String) (evs : List EventRecord) (ctx : MainCtx)
    (name : String) (rc : Int) (cronOk : Bool) (st : EngineState) :
    (log_event ioOk kind nm evs = evs ++ [⟨kind, nm⟩] ∨ log_event ioOk kind nm evs = evs) ∧
    (main_post ctx name rc cronOk false st).2 = (main_post ctx name rc cronOk true st).2 := by
  constructor
  · rw [log_event]
    by_cases h : ioOk = true
    · left; rw [if_pos h]
    · right; rw [if_neg h]
  · rw [main_post, main_post]
    by_cases h : ctx.runContext = some "cron" ∧ rc = 0 ∧ ctx.runUntilSuccess = true
    · rw [if_pos h, if_pos h]
      by_cases hc : cronOk = true
      · rw [if_pos hc, if_pos hc]
      · rw [if_neg hc, if_neg hc]
    · rw [if_neg h, if_neg h]

/-! Reconciler (src/dashboard.py): rebuild_jobs and helpers. -/

/-- Substring test on character lists, the Python `needle in hay`:
true when the needle occurs at some position (the empty needle always
occurs). -/
def containsChars : List Char → List Char → Bool
  | needle, [] => needle.isEmpty
  | needle, c :: rest => needle.isPrefixOf (c :: rest) || containsChars needle rest

/-- The Python `needle in hay` on strings. -/
def containsStr (hay needle : String) : Bool :=
  containsChars needle.toList hay.toList

/-- Worker for `tokens`: split on whitespace runs, dropping empty
pieces, accumulating the current word reversed. -/
def tokensAux : List Char → List Char → List String
  | [], cur => if cur.isEmpty then [] else [String.mk cur.reverse]
  | c :: rest, cur =>
    if c.isWhitespace then
      if cur.isEmpty then tokensAux rest []
      else String.mk cur.reverse :: tokensAux rest []
    else tokensAux rest (c :: cur)

/-- The Python `s.split()` with no argument: whitespace-separated
tokens with empties dropped. -/
def tokens (s : String) : List String :=
  tokensAux s.toList []

/-- The Python `tok.endswith(".py")`. -/
def endsWithPy (tok : String) : Bool :=
  (".py").toList.isSuffixOf tok.toList

/-- The Python `pathlib.Path(p).stem`: the final path component
without its last extension (a leading-dot-only name keeps the dot,
matching pathlib). -/
def pathStem (p : String) : String :=
  let base := (p.toList.reverse.takeWhile (fun c => c ≠ '/')).reverse
  let rev := base.reverse
  let afterDot := rev.takeWhile (fun c => c ≠ '.')
  if afterDot.length = rev.length then String.mk base
  else if rev.drop (afterDot.length + 1) = [] then String.mk base
  else String.mk ((rev.drop (afterDot.length + 1)).reverse)

/-- A job record as assembled by `rebuild_jobs`
(src/dashboard.py:344-396); `last_run` (the human-formatted variant of
the same log mtime) is represented once by `last_run_epoch`. -/
structure Job where
  name : String
  script_path : String
  has_script : Bool
  has_cron : Bool
  schedule : Option String
  last_run_epoch : Option Nat
  log_path : String
deriving DecidableEq

/-- Embedding of `_name_from_cron` (src/dashboard.py:334-342): prefer
the comment tag when truthy, else the stem of the first command token
that ends in `.py` and mentions the scripts directory. -/
def name_from_cron (scriptsDir : String) (j : CronJob) : Option String :=
  if j.comment ≠ "" then some j.comment
  else
    match (tokens j.command).find? (fun tok => endsWithPy tok && containsStr tok scriptsDir) with
    | some tok => some (pathStem tok)
    | none => none

/-- The record seeded for a script on disk (src/dashboard.py:353-365). -/
def seedJob (scriptsDir logsDir : String) (mtime : String → Option Nat)
    (nm : String) : Job :=
  { name := nm
    script_path := scriptsDir ++ "/" ++ nm ++ ".py"
    has_script := true
    has_cron := false
    schedule := none
    last_run_epoch := mtime (logsDir ++ "/" ++ nm ++ ".log")
    log_path := logsDir ++ "/" ++ nm ++ ".log" }

/-- The record synthesized for a schedule entry whose derived name has
no script on disk (src/dashboard.py:374-390): best-effort script path
from the first `.py` token of the command (empty when none). -/
def orphanJob (logsDir : String) (mtime : String → Option Nat) (nm : String)
    (j : CronJob) : Job :=
  { name := nm
    script_path := ((tokens j.command).find? (fun tok => endsWithPy tok)).getD ""
    has_script := false
    has_cron := true
    schedule := some j.slices
    last_run_epoch := mtime (logsDir ++ "/" ++ nm ++ ".log")
    log_path := logsDir ++ "/" ++ nm ++ ".log" }

/-- Insertion-ordered dictionary from job name to record, modelling the
Python dict `jobs`. -/
abbrev JobMap := List (String × Job)

/-- Dictionary lookup. -/
def lookupJob : JobMap → String → Option Job
  | [], _ => none
  | (k0, v) :: rest, k => if k0 = k then some v else lookupJob rest k

/-- Dictionary update `jobs[k] = v`: replace in place or append. -/
def upsert : JobMap → String → Job → JobMap
  | [], k, v => [(k, v)]
  | (k0, v0) :: rest, k, v =>
    if k0 = k then (k, v) :: rest else (k0, v0) :: upsert rest k v

/-- Merge step for one schedule entry (src/dashboard.py:368-393): skip
entries not mentioning the scripts directory and entries with no
derivable name; synthesize an orphan record when the name is new,
otherwise mark the existing record scheduled and overwrite its
expression. -/
def merge_cron (scriptsDir logsDir : String) (mtime : String → Option Nat)
    (m : JobMap) (j : CronJob) : JobMap :=
  if containsStr j.command scriptsDir then
    match name_from_cron scriptsDir j with
    | none => m
    | some nm =>
      match lookupJob m nm with
      | none => upsert m nm (orphanJob logsDir mtime nm j)
      | some job => upsert m nm { job with has_cron := true, schedule := some j.slices }
  else m

/-- Seeding pass of `rebuild_jobs` (src/dashboard.py:353-365): one
record per script on disk. -/
def seedJobs (scriptsDir logsDir : String) (mtime : String → Option Nat)
    (scripts : List String) : JobMap :=
  scripts.foldl (fun m nm => upsert m nm (seedJob scriptsDir logsDir mtime nm)) []

/-- The dict built by `rebuild_jobs` before output ordering: seed one
record per script on disk, then fold the schedule entries. -/
def buildJobMap (scriptsDir logsDir : String) (scripts : List String)
    (cron : List CronJob) (mtime : String → Option Nat) : JobMap :=
  cron.foldl (merge_cron scriptsDir logsDir mtime) (seedJobs scriptsDir logsDir mtime scripts)

/-- Embedding of `rebuild_jobs` (src/dashboard.py:344-396): the dict's
records listed by sorted key, `scripts` being the stems of the `.py`
files on disk and `mtime` the log-file modification times. -/
def rebuild_jobs (scriptsDir logsDir : String) (scripts : List String)
    (cron : List CronJob) (mtime : String → Option Nat) : List Job :=
  (List.insertionSort (fun a b => a ≤ b)
      ((buildJobMap scriptsDir logsDir scripts cron mtime).map Prod.fst)).filterMap
    (lookupJob (buildJobMap scriptsDir logsDir scripts cron mtime))

/-! Invariants of the job dictionary. -/

/-- Every record in the dictionary is stored under its own name. -/
def JobMapInv (m : JobMap) : Prop :=
  ∀ p ∈ m, (Prod.snd p).name = Prod.fst p

/-- A successful lookup comes from a stored pair. -/
theorem lookupJob_mem : ∀ (m : JobMap) (k : String) (v : Job),
    lookupJob m k = some v → (k, v) ∈ m := by
  intro m
  induction m with
  | nil => intro k v h; simp [lookupJob] at h
  | cons p rest ih =>
    intro k v h
    obtain ⟨k0, v0⟩ := p
    rw [lookupJob] at h
    by_cases hk : k0 = k
    · rw [if_pos hk] at h
      injection h with h2
      subst hk; subst h2
      exact List.mem_cons_self _ _
    · rw [if_neg hk] at h
      exact List.mem_cons_of_mem _ (ih k v h)

/-- Updating under key `k` with a record named `k` preserves the
naming invariant. -/
theorem upsert_inv : ∀ (m : JobMap) (k : String) (v : Job),
    JobMapInv m → v.name = k → JobMapInv (upsert m k v) := by
  intro m
  induction m with
  | nil =>
    intro k v _ hv p hp
    rw [upsert] at hp
    simp at hp
    subst hp
    exact hv
  | cons q rest ih =>
    intro k v hm hv p hp
    obtain ⟨k0, v0⟩ := q
    rw [upsert] at hp
    by_cases hk : k0 = k
    · rw [if_pos hk] at hp
      rcases List.mem_cons.mp hp with h | h
      · rw [h]; exact hv
      · exact hm p (List.mem_cons_of_mem _ h)
    · rw [if_neg hk] at hp
      rcases List.mem_cons.mp hp with h | h
      · rw [h]; exact hm _ (List.mem_cons_self _ _)
      · exact ih k v (fun q hq => hm q (List.mem_cons_of_mem _ hq)) hv p h

/-- The seeding pass establishes the naming invariant. -/
theorem seedJobs_inv_aux (scriptsDir logsDir : String) (mtime : String → Option Nat) :
    ∀ (scripts : List String) (m0 : JobMap), JobMapInv m0 →
      JobMapInv (scripts.foldl
        (fun m nm => upsert m nm (seedJob scriptsDir logsDir mtime nm)) m0) := by
  intro scripts
  induction scripts with
  | nil => intro m0 h; simpa using h
  | cons s rest ih =>
    intro m0 h
    rw [List.foldl_cons]
    exact ih _ (upsert_inv m0 s _ h rfl)

/-- Reduction of one merge step in the orphan (synthesize) case. -/
theorem merge_cron_eq_orphan (scriptsDir logsDir : String)
    (mtime : String → Option Nat) (m : JobMap) (j : CronJob) (nm : String)
    (hc : containsStr j.command scriptsDir = true)
    (hn : name_from_cron scriptsDir j = some nm)
    (hl : lookupJob m nm = none) :
    merge_cron scriptsDir logsDir mtime m j =
      upsert m nm (orphanJob logsDir mtime nm j) := by
  simp [merge_cron, hc, hn, hl]

/-- Reduction of one merge step in the update case. -/
theorem merge_cron_eq_update (scriptsDir logsDir : String)
    (mtime : String → Option Nat) (m : JobMap) (j : CronJob) (nm : String)
    (job : Job) (hc : containsStr j.command scriptsDir = true)
    (hn : name_from_cron scriptsDir j = some nm)
    (hl : lookupJob m nm = some job) :
    merge_cron scriptsDir logsDir mtime m j =
      upsert m nm { job with has_cron := true, schedule := some j.slices } := by
  simp [merge_cron, hc, hn, hl]

/-- One merge step preserves the naming invariant. -/
theorem merge_cron_inv (scriptsDir logsDir : String) (mtime : String → Option Nat)
    (m : JobMap) (j : CronJob) (hm : JobMapInv m) :
    JobMapInv (merge_cron scriptsDir logsDir mtime m j) := by
  by_cases hc : containsStr j.command scriptsDir = true
  · cases hn : name_from_cron scriptsDir j with
    | none => simpa [merge_cron, hc, hn] using hm
    | some nm =>
      cases hl : lookupJob m nm with
      | none =>
        rw [merge_cron_eq_orphan scriptsDir logsDir mtime m j nm hc hn hl]
        exact upsert_inv m nm (orphanJob logsDir mtime nm j) hm rfl
      | some job =>
        have hname : job.name = nm := hm _ (lookupJob_mem m nm job hl)
        rw [merge_cron_eq_update scriptsDir logsDir mtime m j nm job hc hn hl]
        exact upsert_inv m nm _ hm hname
  · simpa [merge_cron, hc] using hm

/-- The dictionary built by `rebuild_jobs` satisfies the naming
invariant. -/
theorem buildJobMap_inv (scriptsDir logsDir : String) (scripts : List String)
    (cron : List CronJob) (mtime : String → Option Nat) :
    JobMapInv (buildJobMap scriptsDir logsDir scripts cron mtime) := by
  rw [buildJobMap]
  have hseed : JobMapInv (seedJobs scriptsDir logsDir mtime scripts) := by
    rw [seedJobs]
    exact seedJobs_inv_aux scriptsDir logsDir mtime scripts [] (by intro p hp; simp at hp)
  generalize seedJobs scriptsDir logsDir mtime scripts = m0 at hseed ⊢
  induction cron generalizing m0 with
  | nil => simpa using hseed
  | cons c rest ih =>
    rw [List.foldl_cons]
    exact ih _ (merge_cron_inv scriptsDir logsDir mtime m0 c hseed)

/-- Keys sorted and names matching keys make the output sorted by
name. -/
theorem filterMap_lookup_pairwise (m : JobMap) (hinv : JobMapInv m) :
    ∀ ks : List String, ks.Pairwise (fun a b => a ≤ b) →
      (ks.filterMap (lookupJob m)).Pairwise (fun a b : Job => a.name ≤ b.name) := by
  intro ks
  induction ks with
  | nil => intro _; simp
  | cons k rest ih =>
    intro h
    rcases List.pairwise_cons.mp h with ⟨hhead, htail⟩
    cases hl : lookupJob m k with
    | none => rw [List.filterMap_cons_none hl]; exact ih htail
    | some j =>
      rw [List.filterMap_cons_some hl]
      rw [List.pairwise_cons]
      constructor
      · intro j2 hj2
        obtain ⟨k2, hk2mem, hk2look⟩ := List.mem_filterMap.mp hj2
        have h1 : j.name = k := hinv _ (lookupJob_mem m k j hl)
        have h2 : j2.name = k2 := hinv _ (lookupJob_mem m k2 j2 hk2look)
        rw [h1, h2]
        exact hhead k2 hk2mem
      · exact ih htail

/-- C8. Reconciliation is deterministic for a fixed state of the two
stores (two runs over the same snapshot give the same list), and every
produced list is sorted by job name. -/
theorem rebuild_jobs_deterministic_sorted (scriptsDir logsDir : String)
    (scripts : List String) (cron : List CronJob) (mtime : String → Option Nat) :
    rebuild_jobs scriptsDir logsDir scripts cron mtime =
      rebuild_jobs scriptsDir logsDir scripts cron mtime ∧
    (rebuild_jobs scriptsDir logsDir scripts cron mtime).Pairwise
      (fun a b => a.name ≤ b.name) := by
  refine ⟨rfl, ?_⟩
  rw [rebuild_jobs]
  apply filterMap_lookup_pairwise _ (buildJobMap_inv scriptsDir logsDir scripts cron mtime)
  exact List.sorted_insertionSort (fun a b => a ≤ b) _

/-! Lemmas for the orphan-schedule-entry claim. -/

/-- Looking up the key just upserted returns the new record. -/
theorem lookupJob_upsert_self : ∀ (m : JobMap) (k : String) (v : Job),
    lookupJob (upsert m k v) k = some v := by
  intro m
  induction m with
  | nil => intro k v; simp [upsert, lookupJob]
  | cons q rest ih =>
    intro k v
    obtain ⟨k0, v0⟩ := q
    rw [upsert]
    by_cases hk : k0 = k
    · rw [if_pos hk, lookupJob, if_pos rfl]
    · rw [if_neg hk, lookupJob, if_neg hk]
      exact ih k v

/-- Upserting under one key leaves lookups of other keys unchanged. -/
theorem lookupJob_upsert_other : ∀ (m : JobMap) (k : String) (v : Job)
    (k2 : String), k2 ≠ k → lookupJob (upsert m k v) k2 = lookupJob m k2 := by
  intro m
  induction m with
  | nil =>
    intro k v k2 h
    have hne : ¬ k = k2 := fun he => h he.symm
    simp only [upsert, lookupJob, if_neg hne]
  | cons q rest ih =>
    intro k v k2 h
    obtain ⟨k0, v0⟩ := q
    by_cases hk : k0 = k
    · subst hk
      have hne : ¬ k0 = k2 := fun he => h he.symm
      rw [upsert, if_pos rfl, lookupJob, lookupJob, if_neg hne, if_neg hne]
    · rw [upsert, if_neg hk, lookupJob, lookupJob]
      by_cases h0 : k0 = k2
      · rw [if_pos h0, if_pos h0]
      · rw [if_neg h0, if_neg h0]
        exact ih k v k2 h

/-- A failed lookup means the key is absent from the key list. -/
theorem not_mem_keys_of_lookup_none : ∀ (m : JobMap) (k : String),
    lookupJob m k = none → k ∉ m.map Prod.fst := by
  intro m
  induction m with
  | nil => intro k _ h; simp at h
  | cons q rest ih =>
    intro k hl h
    obtain ⟨k0, v0⟩ := q
    rw [lookupJob] at hl
    by_cases hk : k0 = k
    · rw [if_pos hk] at hl; exact Option.noConfusion hl
    · rw [if_neg hk] at hl
      rcases List.mem_cons.mp h with h1 | h1
      · exact hk h1.symm
      · exact ih k hl h1

/-- Upserting a fresh key appends it to the key list. -/
theorem upsert_keys_of_notmem : ∀ (m : JobMap) (k : String) (v : Job),
    lookupJob m k = none →
      (upsert m k v).map Prod.fst = m.map Prod.fst ++ [k] := by
  intro m
  induction m with
  | nil => intro k v _; simp [upsert]
  | cons q rest ih =>
    intro k v hl
    obtain ⟨k0, v0⟩ := q
    rw [lookupJob] at hl
    by_cases hk : k0 = k
    · rw [if_pos hk] at hl; exact Option.noConfusion hl
    · rw [if_neg hk] at hl
      rw [upsert, if_neg hk, List.map_cons, List.map_cons, ih k v hl,
        List.cons_append]

/-- Seeding never creates a record for a name outside the script
list. -/
theorem seedJobs_lookup_notmem (scriptsDir logsDir : String)
    (mtime : String → Option Nat) :
    ∀ (scripts : List String) (m0 : JobMap) (n : String), n ∉ scripts →
      lookupJob (scripts.foldl
        (fun m nm => upsert m nm (seedJob scriptsDir logsDir mtime nm)) m0) n =
        lookupJob m0 n := by
  intro scripts
  induction scripts with
  | nil => intro m0 n _; rfl
  | cons s rest ih =>
    intro m0 n hn
    rw [List.foldl_cons]
    have hns : n ≠ s := fun he => hn (he ▸ List.mem_cons_self _ _)
    have hrest : n ∉ rest := fun h => hn (List.mem_cons_of_mem _ h)
    rw [ih _ n hrest, lookupJob_upsert_other m0 s _ n hns]

/-- When the target name is not among the keys, the filtered output is
empty. -/
theorem filter_name_nil (m : JobMap) (hinv : JobMapInv m) (n : String) :
    ∀ ks : List String, n ∉ ks →
      ((ks.filterMap (lookupJob m)).filter (fun j => j.name == n)) = [] := by
  intro ks
  induction ks with
  | nil => intro _; simp
  | cons k rest ih =>
    intro h
    have hkn : k ≠ n := fun he => h (he ▸ List.mem_cons_self _ _)
    have hrest : n ∉ rest := fun hm2 => h (List.mem_cons_of_mem _ hm2)
    cases hl : lookupJob m k with
    | none => rw [List.filterMap_cons_none hl]; exact ih hrest
    | some j =>
      rw [List.filterMap_cons_some hl, List.filter_cons]
      have hj : j.name = k := hinv _ (lookupJob_mem m k j hl)
      have hb : (j.name == n) = false := by
        rw [hj]
        exact beq_eq_false_iff_ne.mpr hkn
      rw [hb]
      simp only [Bool.false_eq_true, if_false]
      exact ih hrest

/-- When the target name occurs exactly once among the keys, filtering
the output for it yields exactly the looked-up record. -/
theorem filter_name_single (m : JobMap) (hinv : JobMapInv m) (n : String)
    (tj : Job) (hl : lookupJob m n = some tj) :
    ∀ ks : List String, ks.count n = 1 →
      ((ks.filterMap (lookupJob m)).filter (fun j => j.name == n)) = [tj] := by
  intro ks
  induction ks with
  | nil => intro h; simp at h
  | cons k rest ih =>
    intro h
    by_cases hk : k = n
    · subst hk
      have hrest : rest.count k = 0 := by
        rw [List.count_cons_self] at h; omega
      have hnot : k ∉ rest := List.count_eq_zero.mp hrest
      rw [List.filterMap_cons_some hl, List.filter_cons]
      have hb : (tj.name == k) = true := by
        have ht : tj.name = k := hinv _ (lookupJob_mem m k tj hl)
        rw [ht]; exact beq_self_eq_true k
      rw [hb]
      simp only [if_true]
      rw [filter_name_nil m hinv k rest hnot]
    · have hcount : rest.count n = 1 := by
        rw [List.count_cons_of_ne (fun he => hk he.symm)] at h
        exact h
      cases hlk : lookupJob m k with
      | none => rw [List.filterMap_cons_none hlk]; exact ih hcount
      | some j =>
        rw [List.filterMap_cons_some hlk, List.filter_cons]
        have hj : j.name = k := hinv _ (lookupJob_mem m k j hlk)
        have hb : (j.name == n) = false := by
          rw [hj]
          exact beq_eq_false_iff_ne.mpr hk
        rw [hb]
        simp only [Bool.false_eq_true, if_false]
        exact ih hcount

/-- C9. A schedule entry that mentions the scripts directory and whose
derived name matches no script on disk reconciles to exactly one job
record: the synthesized orphan, with no script, a schedule equal to
the entry's expression, and the best-effort script path taken from the
first `.py` token of the command (possibly empty). -/
theorem orphan_schedule_entry (scriptsDir logsDir : String)
    (scripts : List String) (c : CronJob) (n : String)
    (mtime : String → Option Nat)
    (hc : containsStr c.command scriptsDir = true)
    (hn : name_from_cron scriptsDir c = some n)
    (hns : n ∉ scripts) :
    ((rebuild_jobs scriptsDir logsDir scripts [c] mtime).filter
        (fun j => j.name == n)) = [orphanJob logsDir mtime n c] ∧
    (orphanJob logsDir mtime n c).has_script = false ∧
    (orphanJob logsDir mtime n c).has_cron = true ∧
    (orphanJob logsDir mtime n c).schedule = some c.slices ∧
    (orphanJob logsDir mtime n c).script_path =
      ((tokens c.command).find? (fun tok => endsWithPy tok)).getD "" := by
  refine ⟨?_, rfl, rfl, rfl, rfl⟩
  have hm1 : lookupJob (seedJobs scriptsDir logsDir mtime scripts) n = none := by
    rw [seedJobs]
    rw [seedJobs_lookup_notmem scriptsDir logsDir mtime scripts [] n hns]
    rfl
  have hbuild : buildJobMap scriptsDir logsDir scripts [c] mtime =
      upsert (seedJobs scriptsDir logsDir mtime scripts) n
        (orphanJob logsDir mtime n c) := by
    rw [buildJobMap, List.foldl_cons, List.foldl_nil]
    exact merge_cron_eq_orphan scriptsDir logsDir mtime _ c n hc hn hm1
  have hinv : JobMapInv (buildJobMap scriptsDir logsDir scripts [c] mtime) :=
    buildJobMap_inv scriptsDir logsDir scripts [c] mtime
  have hlook : lookupJob (buildJobMap scriptsDir logsDir scripts [c] mtime) n =
      some (orphanJob logsDir mtime n c) := by
    rw [hbuild]
    exact lookupJob_upsert_self _ n _
  have hcount :
      ((buildJobMap scriptsDir logsDir scripts [c] mtime).map Prod.fst).count n = 1 := by
    rw [hbuild, upsert_keys_of_notmem _ n _ hm1, List.count_append]
    rw [List.count_eq_zero.mpr (not_mem_keys_of_lookup_none _ n hm1)]
    simp
  have hsorted :
      ((List.insertionSort (fun a b => a ≤ b)
          ((buildJobMap scriptsDir logsDir scripts [c] mtime).map Prod.fst)).count n) = 1 := by
    rw [(List.perm_insertionSort (fun a b => a ≤ b) _).count_eq]
    exact hcount
  rw [rebuild_jobs]
  exact filter_name_single _ hinv n _ hlook _ hsorted

/-- Witness for C9: a lone schedule entry tagged ghost pointing into
the scripts directory, with only the unrelated script alpha on disk. -/
theorem orphan_schedule_entry_witness :
    ((rebuild_jobs "/app/scripts" "/app/logs" ["alpha"]
        [⟨"/usr/bin/python3 /app/runner.py /app/scripts/ghost.py", "ghost", "0 1 2 3 4"⟩]
        (fun _ => none)).filter (fun j => j.name == "ghost")) =
      [orphanJob "/app/logs" (fun _ => none) "ghost"
        ⟨"/usr/bin/python3 /app/runner.py /app/scripts/ghost.py", "ghost", "0 1 2 3 4"⟩] ∧
    (orphanJob "/app/logs" (fun _ => none) "ghost"
        ⟨"/usr/bin/python3 /app/runner.py /app/scripts/ghost.py", "ghost", "0 1 2 3 4"⟩).has_script = false ∧
    (orphanJob "/app/logs" (fun _ => none) "ghost"
        ⟨"/usr/bin/python3 /app/runner.py /app/scripts/ghost.py", "ghost", "0 1 2 3 4"⟩).has_cron = true ∧
    (orphanJob "/app/logs" (fun _ => none) "ghost"
        ⟨"/usr/bin/python3 /app/runner.py /app/scripts/ghost.py", "ghost", "0 1 2 3 4"⟩).schedule = some "0 1 2 3 4" ∧
    (orphanJob "/app/logs" (fun _ => none) "ghost"
        ⟨"/usr/bin/python3 /app/runner.py /app/scripts/ghost.py", "ghost", "0 1 2 3 4"⟩).script_path =
      ((tokens "/usr/bin/python3 /app/runner.py /app/scripts/ghost.py").find?
        (fun tok => endsWithPy tok)).getD "" :=
  orphan_schedule_entry "/app/scripts" "/app/logs" ["alpha"]
    ⟨"/usr/bin/python3 /app/runner.py /app/scripts/ghost.py", "ghost", "0 1 2 3 4"⟩
    "ghost" (fun _ => none) (by decide) (by decide) (by decide)
